import Mathlib

/-!
Shallow embedding of the rank-maintenance engine of `src/server.js`:
the asynchronous `PUT /api/v1/clients/:id` handler (lines 107-161).
The database table `clients` is modelled as a `List Record` in row order
(`SELECT * FROM clients` with no ORDER BY returns the rows in that order);
`UPDATE clients SET ... WHERE id = ?` maps over the list, `SELECT ... WHERE
status = ?` filters it, and `ORDER BY priority` is a stable ascending sort.
The handler body is modelled by `putClient`; the two sequential phases of the
handler (the status-change block, lines 123-136, and the priority block,
lines 138-157) are `statusPhase` and `priorityPhase`.
-/

/-- A row of the `clients` table, restricted to the fields the engine reads
and writes: `id`, `status` and `priority`. -/
structure Record where
  id : Int
  status : String
  priority : Int
deriving DecidableEq, Repr

/-- The responses the handler can produce: the 400 of `validateId` when no
row has the requested id (line 111), the dead 404 re-check (line 120), the
400 of the priority range check carrying the computed upper bound that the
message interpolates (lines 147-150), and the 200 with the final
`SELECT * FROM clients ORDER BY status, priority` (lines 159-160). -/
inductive Response where
  | invalidId : Response
  | notFoundLate : Response
  | invalidPriority : Int → Response
  | ok : List Record → Response
deriving DecidableEq, Repr

/-- Whether a response is the 200 success response. -/
def Response.isOk : Response → Bool
  | .ok _ => true
  | _ => false

/-- The persisted table together with the HTTP response of one invocation. -/
structure Outcome where
  db : List Record
  resp : Response
deriving DecidableEq, Repr

/-- `UPDATE clients SET priority = p WHERE id = i`. -/
def updatePriority (db : List Record) (i p : Int) : List Record :=
  db.map (fun c => if c.id == i then { c with priority := p } else c)

/-- `UPDATE clients SET status = s WHERE id = i` (line 124). -/
def updateStatus (db : List Record) (i : Int) (s : String) : List Record :=
  db.map (fun c => if c.id == i then { c with status := s } else c)

/-- The re-ranking loops of the handler (lines 128-130 and 154-156): walk
`order` and issue `UPDATE clients SET priority = k + position WHERE id = ...`
for each element in turn. -/
def applyRanksFrom (db : List Record) (k : Int) : List Record → List Record
  | [] => db
  | c :: cs => applyRanksFrom (updatePriority db c.id k) (k + 1) cs

/-- A re-ranking loop starting at priority 1 (`i + 1` for `i = 0`). -/
def applyRanks (db : List Record) (order : List Record) : List Record :=
  applyRanksFrom db 1 order

/-- Index of the first occurrence of `i` in a list of ids. -/
def idxOfInt : List Int → Int → Option Nat
  | [], _ => none
  | j :: js, i => if j == i then some 0 else (idxOfInt js i).map (· + 1)

/-- Pointwise description of what a re-ranking loop does to one row: if the
row's id occurs in `order`, its priority becomes `k` plus the position of the
first occurrence, otherwise the row is untouched. -/
def prioAssign (order : List Record) (k : Int) (c : Record) : Record :=
  match idxOfInt (order.map Record.id) c.id with
  | some m => { c with priority := k + (m : Int) }
  | none => c

/-- The rank an id receives from a re-ranking loop over the given id list. -/
def rankFromIds (ids : List Int) (k i : Int) : Int :=
  match idxOfInt ids i with
  | some m => k + (m : Int)
  | none => 0

/-- Reassign priorities `k, k+1, ...` along a sequence, in order. -/
def rerankFrom (k : Int) : List Record → List Record
  | [] => []
  | c :: cs => { c with priority := k } :: rerankFrom (k + 1) cs

/-- The integer list `[k, k+1, ..., k+n-1]`. -/
def ranksFrom (k : Int) (n : Nat) : List Int :=
  (List.range n).map (fun j : Nat => k + (j : Int))

/-- The integer list `[1, 2, ..., n]`: the valid rank sequence of a lane of
size `n`. -/
def ranks (n : Nat) : List Int := ranksFrom 1 n

/-- `Array.prototype.splice(n, 0, c)` on a list (line 153): insert `c` at
zero-based index `n`, clamped to the end of the list. -/
def splice {α : Type} : Nat → α → List α → List α
  | 0, c, l => c :: l
  | _ + 1, c, [] => [c]
  | n + 1, c, x :: xs => x :: splice n c xs

/-- `SELECT * FROM clients WHERE status = t`, in row order: the lane of `t`. -/
def lane (db : List Record) (t : String) : List Record :=
  db.filter (fun c => c.status == t)

/-- Comparison by priority, used to model `ORDER BY priority`. -/
def prioLE (a b : Record) : Prop := a.priority ≤ b.priority

instance : DecidableRel prioLE := fun a b =>
  inferInstanceAs (Decidable (a.priority ≤ b.priority))

/-- `ORDER BY priority` (line 141): stable ascending sort by priority. -/
def sortByPriority (l : List Record) : List Record := List.insertionSort prioLE l

/-- Strict lexicographic order on character lists by code point, modelling
SQLite's binary collation of TEXT values. -/
def charListLTb : List Char → List Char → Bool
  | _, [] => false
  | [], _ :: _ => true
  | c :: cs, d :: ds =>
    if c.toNat < d.toNat then true
    else if d.toNat < c.toNat then false
    else charListLTb cs ds

/-- Lexicographic comparison by status then priority, used to model
`ORDER BY status, priority`. -/
def statusPrioLE (a b : Record) : Prop :=
  charListLTb a.status.data b.status.data = true ∨
    (a.status = b.status ∧ a.priority ≤ b.priority)

instance : DecidableRel statusPrioLE := fun a b =>
  inferInstanceAs
    (Decidable (_ = true ∨ (a.status = b.status ∧ a.priority ≤ b.priority)))

/-- `SELECT * FROM clients ORDER BY status, priority` (line 159). -/
def sortedView (db : List Record) : List Record :=
  List.insertionSort statusPrioLE db

/-- `status || client.status` (line 139): the effective lane of the priority
block; the empty string is falsy in JavaScript. -/
def effStatus (client : Record) (st : Option String) : String :=
  match st with
  | some s => if s = "" then client.status else s
  | none => client.status

/-- `clients.filter(c => c.status === client.status && c.id !== id)`
(line 127): the rows remaining in the target's old lane, in row order. -/
def oldLaneOf (db : List Record) (cs : String) (tid : Int) : List Record :=
  db.filter (fun c => c.status == cs && c.id != tid)

/-- Lines 140-144: the effective lane read fresh and sorted by priority, with
the target filtered out. -/
def swimOf (db : List Record) (t : String) (tid : Int) : List Record :=
  (sortByPriority (lane db t)).filter (fun c => c.id != tid)

/-- The body of the status-change block (lines 124-135): update the target's
status, re-rank the old lane in the row order of the stale snapshot `db0`,
then give the target priority `(destination lane size) + 1`. -/
def stepStatus (db0 : List Record) (tid : Int) (client : Record) (s : String) :
    List Record :=
  updatePriority
    (applyRanks (updateStatus db0 tid s) (oldLaneOf db0 client.status tid))
    tid (((lane db0 s).length : Int) + 1)

/-- The status-change block with its guard (line 123): it runs only when a
truthy `status` differs from the target's current status. -/
def statusPhase (db0 : List Record) (tid : Int) (st : Option String) :
    List Record :=
  match db0.find? (fun c => c.id == tid) with
  | none => db0
  | some client =>
    match st with
    | none => db0
    | some s => if s ≠ "" ∧ client.status ≠ s then stepStatus db0 tid client s else db0

/-- The priority block (lines 139-157): read the effective lane fresh, drop
the target, range-check the requested priority against `[1, length+1]`, then
splice the (stale) target row in at index `p - 1` and re-rank the sequence. -/
def priorityPhase (db1 : List Record) (tid : Int) (client : Record) (t : String)
    (p : Int) : Outcome :=
  if p < 1 ∨ (((swimOf db1 t tid).length : Int) + 1) < p then
    ⟨db1, Response.invalidPriority (((swimOf db1 t tid).length : Int) + 1)⟩
  else
    ⟨applyRanks db1 (splice (p - 1).toNat client (swimOf db1 t tid)),
      Response.ok (sortedView (applyRanks db1 (splice (p - 1).toNat client (swimOf db1 t tid))))⟩

/-- The whole handler (lines 107-161). `validateId` is the first `find?`
(its NaN check concerns raw-input parsing, outside the engine); the second
`find?` is the handler's own re-check over the same table (line 117). The
priority block is guarded by JavaScript truthiness, `if (priority)`, so a
priority of `0` is treated as absent. -/
def putClient (db0 : List Record) (tid : Int) (st : Option String)
    (pr : Option Int) : Outcome :=
  match db0.find? (fun c => c.id == tid) with
  | none => ⟨db0, Response.invalidId⟩
  | some _ =>
    match db0.find? (fun c => c.id == tid) with
    | none => ⟨db0, Response.notFoundLate⟩
    | some client =>
      let db1 := statusPhase db0 tid st
      match pr with
      | none => ⟨db1, Response.ok (sortedView db1)⟩
      | some p =>
        if p = 0 then ⟨db1, Response.ok (sortedView db1)⟩
        else priorityPhase db1 tid client (effStatus client st) p

/-- The data-model requirement that ids are unique across the table. -/
def idsNodup (db : List Record) : Prop := (db.map Record.id).Nodup

/-- The rank-maintenance invariant for one lane: its multiset of priorities
is exactly `{1, ..., N}` for `N` the lane's size. -/
def laneValid (db : List Record) (t : String) : Prop :=
  ((lane db t).map Record.priority).Perm (ranks (lane db t).length)

/-- The rank-maintenance invariant for every (inhabited) lane of the table. -/
def dbValid (db : List Record) : Prop :=
  ∀ t ∈ db.map Record.status, laneValid db t

instance : ∀ db : List Record, Decidable (idsNodup db) := fun db =>
  inferInstanceAs (Decidable (db.map Record.id).Nodup)

instance : ∀ (db : List Record) (t : String), Decidable (laneValid db t) :=
  fun db t =>
    inferInstanceAs
      (Decidable (((lane db t).map Record.priority).Perm (ranks (lane db t).length)))

instance : ∀ db : List Record, Decidable (dbValid db) := fun db =>
  inferInstanceAs (Decidable (∀ t ∈ db.map Record.status, laneValid db t))

example :
    putClient
      [⟨1, ("backlog"), 1⟩, ⟨2, ("backlog"), 2⟩, ⟨3, ("in-progress"), 1⟩]
      1 (some ("in-progress")) none =
    ⟨[⟨1, ("in-progress"), 2⟩, ⟨2, ("backlog"), 1⟩, ⟨3, ("in-progress"), 1⟩],
      Response.ok
        [⟨2, ("backlog"), 1⟩, ⟨3, ("in-progress"), 1⟩, ⟨1, ("in-progress"), 2⟩]⟩ := by
  decide

/-! ### Basic lemmas about the building blocks -/

theorem prioAssign_id (order : List Record) (k : Int) (c : Record) :
    (prioAssign order k c).id = c.id := by
  unfold prioAssign
  cases idxOfInt (order.map Record.id) c.id <;> rfl

theorem prioAssign_status (order : List Record) (k : Int) (c : Record) :
    (prioAssign order k c).status = c.status := by
  unfold prioAssign
  cases idxOfInt (order.map Record.id) c.id <;> rfl

theorem idxOfInt_eq_none_iff (ids : List Int) (i : Int) :
    idxOfInt ids i = none ↔ i ∉ ids := by
  induction ids with
  | nil => simp [idxOfInt]
  | cons j js ih =>
    by_cases h : j = i
    · subst h
      simp [idxOfInt]
    · simp only [idxOfInt, beq_iff_eq, h, if_false, List.mem_cons]
      cases hi : idxOfInt js i with
      | none =>
        simp only [Option.map_none', true_iff]
        intro hor
        rcases hor with h1 | h2
        · exact h h1.symm
        · exact ((ih.mp hi) h2)
      | some m =>
        simp only [Option.map_some']
        apply iff_of_false (by simp)
        intro hnot
        have hmem : i ∉ js := fun hm => hnot (Or.inr hm)
        rw [ih.mpr hmem] at hi
        exact Option.noConfusion hi

theorem prioAssign_of_not_mem (order : List Record) (k : Int) (c : Record)
    (h : c.id ∉ order.map Record.id) : prioAssign order k c = c := by
  unfold prioAssign
  rw [(idxOfInt_eq_none_iff (order.map Record.id) c.id).mpr h]

theorem prioAssign_cons_eq (o : Record) (os : List Record) (k : Int) (x : Record)
    (h : x.id = o.id) : prioAssign (o :: os) k x = { x with priority := k } := by
  unfold prioAssign
  simp only [List.map_cons, idxOfInt, beq_iff_eq, h, if_true]
  simp

theorem prioAssign_cons_ne (o : Record) (os : List Record) (k : Int) (x : Record)
    (h : x.id ≠ o.id) : prioAssign (o :: os) k x = prioAssign os (k + 1) x := by
  unfold prioAssign
  simp only [List.map_cons, idxOfInt, beq_iff_eq]
  rw [if_neg (fun he => h he.symm)]
  cases hi : idxOfInt (os.map Record.id) x.id with
  | none => simp
  | some m =>
    simp only [Option.map_some']
    have : k + ((m + 1 : Nat) : Int) = k + 1 + (m : Int) := by push_cast; ring
    rw [this]

theorem updatePriority_eq_map (db : List Record) (i p : Int) :
    updatePriority db i p =
      db.map (fun c => if c.id == i then { c with priority := p } else c) := rfl

theorem applyRanksFrom_eq_map (order : List Record) :
    ∀ (db : List Record) (k : Int), (order.map Record.id).Nodup →
      applyRanksFrom db k order = db.map (prioAssign order k) := by
  induction order with
  | nil =>
    intro db k _
    simp only [applyRanksFrom]
    rw [show List.map (prioAssign [] k) db = List.map id db from
      List.map_congr_left (fun c _ => rfl), List.map_id]
  | cons o os ih =>
    intro db k hnd
    simp only [List.map_cons, List.nodup_cons] at hnd
    obtain ⟨hno, hnd⟩ := hnd
    simp only [applyRanksFrom]
    rw [ih _ _ hnd, updatePriority_eq_map, List.map_map]
    apply List.map_congr_left
    intro c _
    simp only [Function.comp]
    by_cases hc : c.id = o.id
    · rw [if_pos (by simpa using hc)]
      have hid : ({ c with priority := k } : Record).id ∉ os.map Record.id := by
        simpa [hc] using hno
      rw [prioAssign_of_not_mem _ _ _ hid, prioAssign_cons_eq _ _ _ _ hc]
    · rw [if_neg (by simpa using hc), prioAssign_cons_ne _ _ _ _ hc]

theorem rerank_map_self (order : List Record) :
    ∀ k : Int, (order.map Record.id).Nodup →
      order.map (prioAssign order k) = rerankFrom k order := by
  induction order with
  | nil => intro k _; rfl
  | cons o os ih =>
    intro k hnd
    simp only [List.map_cons, List.nodup_cons] at hnd
    obtain ⟨hno, hnd⟩ := hnd
    simp only [List.map_cons, rerankFrom]
    have hhead : prioAssign (o :: os) k o = { o with priority := k } :=
      prioAssign_cons_eq o os k o rfl
    have htail : List.map (prioAssign (o :: os) k) os = rerankFrom (k + 1) os := by
      rw [← ih (k + 1) hnd]
      apply List.map_congr_left
      intro x hx
      have hxo : x.id ≠ o.id := by
        intro he
        exact hno (he ▸ List.mem_map_of_mem Record.id hx)
      exact prioAssign_cons_ne o os k x hxo
    rw [hhead, htail]

theorem ranksFrom_succ (k : Int) (n : Nat) :
    ranksFrom k (n + 1) = k :: ranksFrom (k + 1) n := by
  unfold ranksFrom
  rw [List.range_succ_eq_map]
  simp only [List.map_cons, Nat.cast_zero, add_zero, List.map_map]
  congr 1
  apply List.map_congr_left
  intro j _
  simp only [Function.comp]
  push_cast
  ring

theorem ranksFrom_append_last (k : Int) (n : Nat) :
    ranksFrom k (n + 1) = ranksFrom k n ++ [k + (n : Int)] := by
  unfold ranksFrom
  rw [List.range_succ]
  simp

theorem ranks_succ_perm (n : Nat) :
    (ranks (n + 1)).Perm (((n : Int) + 1) :: ranks n) := by
  unfold ranks
  rw [ranksFrom_append_last]
  have h1 : (1 : Int) + (n : Int) = (n : Int) + 1 := by ring
  rw [h1]
  exact List.perm_append_singleton _ _

theorem rerankFrom_map_priority (l : List Record) :
    ∀ k : Int, (rerankFrom k l).map Record.priority = ranksFrom k l.length := by
  induction l with
  | nil => intro k; rfl
  | cons c cs ih =>
    intro k
    simp only [rerankFrom, List.map_cons, List.length_cons, ranksFrom_succ, ih]

theorem rerankFrom_map_id (l : List Record) :
    ∀ k : Int, (rerankFrom k l).map Record.id = l.map Record.id := by
  induction l with
  | nil => intro k; rfl
  | cons c cs ih => intro k; simp only [rerankFrom, List.map_cons, ih]

theorem rerankFrom_length (l : List Record) :
    ∀ k : Int, (rerankFrom k l).length = l.length := by
  induction l with
  | nil => intro k; rfl
  | cons c cs ih => intro k; simp only [rerankFrom, List.length_cons, ih]

theorem splice_perm {α : Type} :
    ∀ (n : Nat) (c : α) (l : List α), (splice n c l).Perm (c :: l) := by
  intro n
  induction n with
  | zero => intro c l; exact List.Perm.refl _
  | succ n ih =>
    intro c l
    cases l with
    | nil => exact List.Perm.refl _
    | cons x xs => exact ((ih c xs).cons x).trans (List.Perm.swap c x xs)

theorem splice_map {α β : Type} (f : α → β) :
    ∀ (n : Nat) (c : α) (l : List α),
      (splice n c l).map f = splice n (f c) (l.map f) := by
  intro n
  induction n with
  | zero => intro c l; rfl
  | succ n ih =>
    intro c l
    cases l with
    | nil => rfl
    | cons x xs => simp only [splice, List.map_cons, ih]

theorem map_id_updatePriority (db : List Record) (i p : Int) :
    (updatePriority db i p).map Record.id = db.map Record.id := by
  unfold updatePriority
  rw [List.map_map]
  apply List.map_congr_left
  intro c _
  simp only [Function.comp]
  split <;> rfl

theorem map_id_updateStatus (db : List Record) (i : Int) (s : String) :
    (updateStatus db i s).map Record.id = db.map Record.id := by
  unfold updateStatus
  rw [List.map_map]
  apply List.map_congr_left
  intro c _
  simp only [Function.comp]
  split <;> rfl

theorem map_id_applyRanksFrom (order : List Record) :
    ∀ (db : List Record) (k : Int),
      (applyRanksFrom db k order).map Record.id = db.map Record.id := by
  induction order with
  | nil => intro db k; rfl
  | cons o os ih =>
    intro db k
    simp only [applyRanksFrom]
    rw [ih, map_id_updatePriority]

theorem applyRanksFrom_congr_ids :
    ∀ (l₁ l₂ : List Record) (db : List Record) (k : Int),
      l₁.map Record.id = l₂.map Record.id →
      applyRanksFrom db k l₁ = applyRanksFrom db k l₂ := by
  intro l₁
  induction l₁ with
  | nil =>
    intro l₂ db k h
    cases l₂ with
    | nil => rfl
    | cons b bs => simp at h
  | cons a as ih =>
    intro l₂ db k h
    cases l₂ with
    | nil => simp at h
    | cons b bs =>
      simp only [List.map_cons, List.cons.injEq] at h
      obtain ⟨h1, h2⟩ := h
      simp only [applyRanksFrom, h1]
      exact ih bs _ _ h2

theorem rankFromIds_cons_self (j : Int) (js : List Int) (k : Int) :
    rankFromIds (j :: js) k j = k := by
  unfold rankFromIds
  simp [idxOfInt]

theorem rankFromIds_cons_ne (j : Int) (js : List Int) (k i : Int) (h : i ≠ j) :
    rankFromIds (j :: js) k i = rankFromIds js (k + 1) i := by
  unfold rankFromIds
  simp only [idxOfInt, beq_iff_eq]
  rw [if_neg (fun he => h he.symm)]
  cases hi : idxOfInt js i with
  | none => rfl
  | some m =>
    simp only [Option.map_some']
    push_cast
    ring

theorem rankFromIds_map_self (ids : List Int) :
    ∀ k : Int, ids.Nodup → ids.map (rankFromIds ids k) = ranksFrom k ids.length := by
  induction ids with
  | nil => intro k _; rfl
  | cons j js ih =>
    intro k hnd
    simp only [List.nodup_cons] at hnd
    obtain ⟨hj, hnd⟩ := hnd
    simp only [List.map_cons, List.length_cons, ranksFrom_succ]
    rw [rankFromIds_cons_self]
    congr 1
    rw [← ih (k + 1) hnd]
    apply List.map_congr_left
    intro i hi
    exact rankFromIds_cons_ne j js k i (fun he => hj (he ▸ hi))

theorem prioAssign_priority_of_mem (order : List Record) (k : Int) (c : Record)
    (h : c.id ∈ order.map Record.id) :
    (prioAssign order k c).priority =
      rankFromIds (order.map Record.id) k c.id := by
  unfold prioAssign rankFromIds
  cases hi : idxOfInt (order.map Record.id) c.id with
  | none => exact absurd h ((idxOfInt_eq_none_iff _ _).mp hi)
  | some m => rfl

theorem lane_map (g : Record → Record) (hg : ∀ c, (g c).status = c.status)
    (db : List Record) (t : String) :
    lane (db.map g) t = (lane db t).map g := by
  unfold lane
  rw [List.filter_map]
  congr 1
  apply List.filter_congr
  intro c _
  simp [Function.comp, hg]

theorem find_id_map (g : Record → Record) (hg : ∀ c, (g c).id = c.id)
    (db : List Record) (x : Int) :
    (db.map g).find? (fun c => c.id == x) =
      (db.find? (fun c => c.id == x)).map g := by
  have hp : ((fun c : Record => c.id == x) ∘ g) = (fun c : Record => c.id == x) := by
    funext c
    simp [Function.comp, hg]
  rw [List.find?_map, hp]

theorem eq_of_id_eq {db : List Record} (hnd : idsNodup db) {a b : Record}
    (ha : a ∈ db) (hb : b ∈ db) (hid : a.id = b.id) : a = b :=
  List.inj_on_of_nodup_map hnd ha hb hid

theorem mem_lane {db : List Record} {t : String} {c : Record} :
    c ∈ lane db t ↔ c ∈ db ∧ c.status = t := by
  simp [lane, List.mem_filter]

theorem filter_eq_singleton_of_nodup (db : List Record) :
    ∀ c : Record, idsNodup db → c ∈ db →
      db.filter (fun x => x.id == c.id) = [c] := by
  induction db with
  | nil => intro c _ h; simp at h
  | cons a as ih =>
    intro c hnd hc
    unfold idsNodup at hnd
    simp only [List.map_cons, List.nodup_cons] at hnd
    obtain ⟨ha, hnd⟩ := hnd
    rcases List.mem_cons.mp hc with rfl | hc2
    · rw [List.filter_cons_of_pos (by simp)]
      have htail : as.filter (fun x => x.id == c.id) = [] := by
        rw [List.filter_eq_nil_iff]
        intro x hx
        simp only [beq_iff_eq]
        intro he
        exact ha (he ▸ List.mem_map_of_mem Record.id hx)
      rw [htail]
    · have hca : c.id ≠ a.id := by
        intro he
        exact ha (he ▸ List.mem_map_of_mem Record.id hc2)
      rw [List.filter_cons_of_neg (by simpa using fun he => hca he.symm)]
      exact ih c hnd hc2

theorem filter_or_perm (p q : Record → Bool) (l : List Record)
    (h : ∀ a ∈ l, ¬(p a = true ∧ q a = true)) :
    (l.filter (fun a => p a || q a)).Perm (l.filter p ++ l.filter q) := by
  induction l with
  | nil => simp
  | cons a as ih =>
    have htail := fun x hx => h x (List.mem_cons_of_mem a hx)
    have hhead := h a (List.mem_cons_self a as)
    cases hp : p a with
    | true =>
      have hq : q a = false := by
        cases hqq : q a with
        | false => rfl
        | true => exact absurd ⟨hp, hqq⟩ hhead
      rw [List.filter_cons_of_pos (by simp [hp]), List.filter_cons_of_pos hp,
        List.filter_cons_of_neg (by simp [hq])]
      exact (ih htail).cons a
    | false =>
      cases hq : q a with
      | true =>
        rw [List.filter_cons_of_pos (by simp [hp, hq]),
          List.filter_cons_of_neg (by simp [hp]), List.filter_cons_of_pos hq]
        exact ((ih htail).cons a).trans List.perm_middle.symm
      | false =>
        rw [List.filter_cons_of_neg (by simp [hp, hq]),
          List.filter_cons_of_neg (by simp [hp]),
          List.filter_cons_of_neg (by simp [hq])]
        exact ih htail

theorem lane_eq_nil_of_not_mem (db : List Record) (t : String)
    (h : t ∉ db.map Record.status) : lane db t = [] := by
  unfold lane
  rw [List.filter_eq_nil_iff]
  intro c hc
  simp only [beq_iff_eq]
  intro he
  exact h (he ▸ List.mem_map_of_mem Record.status hc)

theorem laneValid_of_nil {db : List Record} {t : String} (h : lane db t = []) :
    laneValid db t := by
  unfold laneValid
  rw [h]
  exact List.Perm.refl _

theorem dbValid_iff_all (db : List Record) :
    dbValid db ↔ ∀ t : String, laneValid db t := by
  constructor
  · intro hv t
    by_cases hm : t ∈ db.map Record.status
    · exact hv t hm
    · exact laneValid_of_nil (lane_eq_nil_of_not_mem db t hm)
  · intro hv t _
    exact hv t

/-! ### The status-change block as a pointwise map -/

/-- Pointwise effect of the whole status-change block on one row: the target
row gets the new status and priority `(destination lane size) + 1`; any other
row is re-ranked exactly when it lies in the old lane. -/
def gStep (db0 : List Record) (tid : Int) (cs s : String) (c : Record) : Record :=
  if c.id == tid then
    { c with status := s, priority := ((lane db0 s).length : Int) + 1 }
  else prioAssign (oldLaneOf db0 cs tid) 1 c

theorem gStep_id (db0 : List Record) (tid : Int) (cs s : String) (c : Record) :
    (gStep db0 tid cs s c).id = c.id := by
  unfold gStep
  split
  · rfl
  · exact prioAssign_id _ _ _

theorem oldLaneOf_ids_nodup (db0 : List Record) (cs : String) (tid : Int)
    (hnd : idsNodup db0) : ((oldLaneOf db0 cs tid).map Record.id).Nodup := by
  unfold oldLaneOf
  exact List.Nodup.sublist (List.Sublist.map Record.id (List.filter_sublist db0)) hnd

theorem oldLaneOf_id_ne (db0 : List Record) (cs : String) (tid : Int) :
    ∀ x ∈ oldLaneOf db0 cs tid, x.id ≠ tid := by
  intro x hx
  unfold oldLaneOf at hx
  rw [List.mem_filter] at hx
  have h2 := hx.2
  simp only [Bool.and_eq_true, bne_iff_ne] at h2
  exact h2.2

theorem oldLaneOf_status (db0 : List Record) (cs : String) (tid : Int) :
    ∀ x ∈ oldLaneOf db0 cs tid, x.status = cs := by
  intro x hx
  unfold oldLaneOf at hx
  rw [List.mem_filter] at hx
  have h2 := hx.2
  simp only [Bool.and_eq_true, beq_iff_eq] at h2
  exact h2.1

theorem oldLaneOf_mem_db (db0 : List Record) (cs : String) (tid : Int) :
    ∀ x ∈ oldLaneOf db0 cs tid, x ∈ db0 := by
  intro x hx
  unfold oldLaneOf at hx
  exact (List.mem_filter.mp hx).1

theorem tid_not_mem_oldLaneOf (db0 : List Record) (cs : String) (tid : Int) :
    tid ∉ (oldLaneOf db0 cs tid).map Record.id := by
  intro hmem
  obtain ⟨x, hx, hxid⟩ := List.mem_map.mp hmem
  exact oldLaneOf_id_ne db0 cs tid x hx hxid

theorem stepStatus_eq_map (db0 : List Record) (tid : Int) (client : Record)
    (s : String) (hnd : idsNodup db0) :
    stepStatus db0 tid client s = db0.map (gStep db0 tid client.status s) := by
  unfold stepStatus applyRanks
  rw [applyRanksFrom_eq_map _ _ _ (oldLaneOf_ids_nodup db0 client.status tid hnd)]
  unfold updateStatus updatePriority
  rw [List.map_map, List.map_map]
  apply List.map_congr_left
  intro c _
  simp only [Function.comp]
  unfold gStep
  by_cases hc : c.id = tid
  · rw [if_pos (show (c.id == tid) = true by simpa using hc),
      if_pos (show (c.id == tid) = true by simpa using hc)]
    have h2 : prioAssign (oldLaneOf db0 client.status tid) 1
        { c with status := s } = { c with status := s } := by
      apply prioAssign_of_not_mem
      show ({ c with status := s } : Record).id ∉ _
      have hid : ({ c with status := s } : Record).id = tid := hc
      rw [hid]
      exact tid_not_mem_oldLaneOf db0 client.status tid
    rw [h2]
    rw [if_pos (show (({ c with status := s } : Record).id == tid) = true by simpa using hc)]
  · rw [if_neg (show ¬(c.id == tid) = true by simpa using hc),
      if_neg (show ¬(c.id == tid) = true by simpa using hc)]
    rw [if_neg (show ¬((prioAssign (oldLaneOf db0 client.status tid) 1 c).id == tid) = true by
      simpa [prioAssign_id] using hc)]

theorem id_ne_tid_of_status_ne {db0 : List Record} {client c : Record} {tid : Int}
    (hnd : idsNodup db0) (hmem : client ∈ db0) (hcid : client.id = tid)
    (hc : c ∈ db0) (hst : c.status ≠ client.status) : c.id ≠ tid := by
  intro he
  have hce : c = client := eq_of_id_eq hnd hc hmem (he.trans hcid.symm)
  exact hst (by rw [hce])

theorem gStep_eq_self {db0 : List Record} {client c : Record} {tid : Int}
    (s : String) (hnd : idsNodup db0) (hc : c ∈ db0)
    (hcs : c.status ≠ client.status) (hct : c.id ≠ tid) :
    gStep db0 tid client.status s c = c := by
  unfold gStep
  rw [if_neg (by simpa using hct)]
  apply prioAssign_of_not_mem
  intro hmm
  obtain ⟨x, hx, hxid⟩ := List.mem_map.mp hmm
  have hxdb := oldLaneOf_mem_db db0 client.status tid x hx
  have hxs := oldLaneOf_status db0 client.status tid x hx
  have hxc : x = c := eq_of_id_eq hnd hxdb hc hxid
  exact hcs (hxc ▸ hxs)

theorem gStep_target (db0 : List Record) {c : Record} {tid : Int} (cs s : String)
    (hct : c.id = tid) :
    gStep db0 tid cs s c =
      { c with status := s, priority := ((lane db0 s).length : Int) + 1 } := by
  unfold gStep
  rw [if_pos (by simpa using hct)]

theorem stepStatus_lane_old (db0 : List Record) (tid : Int) (client : Record)
    (s : String) (hnd : idsNodup db0) (hmem : client ∈ db0)
    (hcid : client.id = tid) (hd : client.status ≠ s) :
    lane (stepStatus db0 tid client s) client.status =
      rerankFrom 1 (oldLaneOf db0 client.status tid) := by
  rw [stepStatus_eq_map db0 tid client s hnd]
  unfold lane
  rw [List.filter_map]
  have hfe : db0.filter ((fun c => c.status == client.status) ∘
      gStep db0 tid client.status s) = oldLaneOf db0 client.status tid := by
    unfold oldLaneOf
    apply List.filter_congr
    intro c hc
    simp only [Function.comp]
    by_cases hcid2 : c.id = tid
    · have hg := gStep_target db0 client.status s hcid2
      have h1 : (s == client.status) = false :=
        beq_eq_false_iff_ne.mpr (fun he => hd he.symm)
      simp [hg, hcid2, h1]
    · have hg : gStep db0 tid client.status s c =
          prioAssign (oldLaneOf db0 client.status tid) 1 c := by
        unfold gStep
        rw [if_neg (by simpa using hcid2)]
      simp [hg, prioAssign_status, hcid2]
  rw [hfe]
  rw [← rerank_map_self (oldLaneOf db0 client.status tid) 1
    (oldLaneOf_ids_nodup db0 client.status tid hnd)]
  apply List.map_congr_left
  intro c hc
  have hg : gStep db0 tid client.status s c =
      prioAssign (oldLaneOf db0 client.status tid) 1 c := by
    unfold gStep
    rw [if_neg (by simpa using oldLaneOf_id_ne db0 client.status tid c hc)]
  exact hg

theorem stepStatus_lane_dest (db0 : List Record) (tid : Int) (client : Record)
    (s : String) (hnd : idsNodup db0) (hmem : client ∈ db0)
    (hcid : client.id = tid) (hd : client.status ≠ s) :
    (lane (stepStatus db0 tid client s) s).Perm
      ({ client with status := s, priority := ((lane db0 s).length : Int) + 1 }
        :: lane db0 s) := by
  rw [stepStatus_eq_map db0 tid client s hnd]
  unfold lane
  rw [List.filter_map]
  have hfe : db0.filter ((fun c => c.status == s) ∘ gStep db0 tid client.status s) =
      db0.filter (fun c => c.id == tid || c.status == s) := by
    apply List.filter_congr
    intro c hc
    simp only [Function.comp]
    by_cases hcid2 : c.id = tid
    · have hg := gStep_target db0 client.status s hcid2
      simp [hg, hcid2]
    · have hg : gStep db0 tid client.status s c =
          prioAssign (oldLaneOf db0 client.status tid) 1 c := by
        unfold gStep
        rw [if_neg (by simpa using hcid2)]
      simp [hg, prioAssign_status, hcid2]
  rw [hfe]
  have hdisj : ∀ c ∈ db0, ¬((c.id == tid) = true ∧ (c.status == s) = true) := by
    rintro c hc ⟨h1, h2⟩
    have hce : c = client :=
      eq_of_id_eq hnd hc hmem ((beq_iff_eq.mp h1).trans hcid.symm)
    exact hd ((hce ▸ (beq_iff_eq.mp h2) : client.status = s))
  have hperm := filter_or_perm (fun c => c.id == tid) (fun c => c.status == s) db0 hdisj
  have hsing : db0.filter (fun c : Record => c.id == tid) = [client] := by
    have h := filter_eq_singleton_of_nodup db0 client hnd hmem
    rw [hcid] at h
    exact h
  have h1 : (db0.filter (fun c => c.id == tid || c.status == s)).Perm
      (client :: lane db0 s) := by
    unfold lane
    rw [← List.singleton_append]
    rw [← hsing]
    exact hperm
  have h2 := h1.map (gStep db0 tid client.status s)
  rw [List.map_cons, gStep_target db0 client.status s hcid] at h2
  have hmap : (lane db0 s).map (gStep db0 tid client.status s) = lane db0 s := by
    rw [show (lane db0 s).map (gStep db0 tid client.status s) =
        List.map id (lane db0 s) from List.map_congr_left ?pw, List.map_id]
    case pw =>
      intro c hc
      obtain ⟨hcdb, hcs⟩ := mem_lane.mp hc
      have hst : c.status ≠ client.status := by
        rw [hcs]
        exact fun he => hd he.symm
      exact gStep_eq_self s hnd hcdb hst
        (id_ne_tid_of_status_ne hnd hmem hcid hcdb hst)
  rw [hmap] at h2
  exact h2

theorem stepStatus_lane_other (db0 : List Record) (tid : Int) (client : Record)
    (s t : String) (hnd : idsNodup db0) (hmem : client ∈ db0)
    (hcid : client.id = tid) (ht1 : t ≠ client.status) (ht2 : t ≠ s) :
    lane (stepStatus db0 tid client s) t = lane db0 t := by
  rw [stepStatus_eq_map db0 tid client s hnd]
  unfold lane
  rw [List.filter_map]
  have hfe : db0.filter ((fun c => c.status == t) ∘ gStep db0 tid client.status s) =
      db0.filter (fun c => c.status == t) := by
    apply List.filter_congr
    intro c hc
    simp only [Function.comp]
    by_cases hcid2 : c.id = tid
    · have hce : c = client := eq_of_id_eq hnd hc hmem (hcid2.trans hcid.symm)
      have hg := gStep_target db0 client.status s hcid2
      have hL : (s == t) = false := beq_eq_false_iff_ne.mpr (fun he => ht2 he.symm)
      have hR : (c.status == t) = false :=
        beq_eq_false_iff_ne.mpr (by rw [hce]; exact fun he => ht1 he.symm)
      simp [hg, hL, hR]
    · have hg : gStep db0 tid client.status s c =
          prioAssign (oldLaneOf db0 client.status tid) 1 c := by
        unfold gStep
        rw [if_neg (by simpa using hcid2)]
      simp [hg, prioAssign_status]
  rw [hfe]
  rw [show (db0.filter (fun c : Record => c.status == t)).map
      (gStep db0 tid client.status s) =
      List.map id (db0.filter (fun c : Record => c.status == t)) from
    List.map_congr_left ?pw2, List.map_id]
  case pw2 =>
    intro c hc
    rw [List.mem_filter] at hc
    obtain ⟨hcdb, hcs⟩ := hc
    rw [beq_iff_eq] at hcs
    have hst : c.status ≠ client.status := by
      rw [hcs]
      exact ht1
    exact gStep_eq_self s hnd hcdb hst
      (id_ne_tid_of_status_ne hnd hmem hcid hcdb hst)

theorem stepStatus_map_id (db0 : List Record) (tid : Int) (client : Record)
    (s : String) :
    (stepStatus db0 tid client s).map Record.id = db0.map Record.id := by
  unfold stepStatus applyRanks
  rw [map_id_updatePriority, map_id_applyRanksFrom, map_id_updateStatus]

theorem find_tid_updatePriority_ne (db : List Record) (x p tid : Int)
    (hx : x ≠ tid) :
    (updatePriority db x p).find? (fun c => c.id == tid) =
      db.find? (fun c => c.id == tid) := by
  unfold updatePriority
  rw [find_id_map _ (fun c => by split <;> rfl) db tid]
  cases hfind : db.find? (fun c => c.id == tid) with
  | none => rfl
  | some c =>
    have hc : c.id = tid := by simpa using List.find?_some hfind
    simp only [Option.map_some']
    rw [if_neg (show ¬(c.id == x) = true by
      rw [hc]
      simpa using fun he => hx he.symm)]

theorem find_tid_applyRanksFrom (tid : Int) (order : List Record) :
    ∀ (db : List Record) (k : Int), (∀ x ∈ order, x.id ≠ tid) →
      (applyRanksFrom db k order).find? (fun c => c.id == tid) =
        db.find? (fun c => c.id == tid) := by
  induction order with
  | nil => intro db k _; rfl
  | cons o os ih =>
    intro db k h
    simp only [applyRanksFrom]
    rw [ih _ _ (fun x hx => h x (List.mem_cons_of_mem o hx)),
      find_tid_updatePriority_ne db o.id k tid (h o (List.mem_cons_self o os))]

theorem find_tid_updatePriority_eq (db : List Record) (p tid : Int) :
    (updatePriority db tid p).find? (fun c => c.id == tid) =
      (db.find? (fun c => c.id == tid)).map (fun c => { c with priority := p }) := by
  unfold updatePriority
  rw [find_id_map _ (fun c => by split <;> rfl) db tid]
  cases hfind : db.find? (fun c => c.id == tid) with
  | none => rfl
  | some c =>
    have hc : c.id = tid := by simpa using List.find?_some hfind
    simp only [Option.map_some']
    rw [if_pos (show (c.id == tid) = true by simpa using hc)]

theorem find_tid_updateStatus (db : List Record) (s : String) (tid : Int) :
    (updateStatus db tid s).find? (fun c => c.id == tid) =
      (db.find? (fun c => c.id == tid)).map (fun c => { c with status := s }) := by
  unfold updateStatus
  rw [find_id_map _ (fun c => by split <;> rfl) db tid]
  cases hfind : db.find? (fun c => c.id == tid) with
  | none => rfl
  | some c =>
    have hc : c.id = tid := by simpa using List.find?_some hfind
    simp only [Option.map_some']
    rw [if_pos (show (c.id == tid) = true by simpa using hc)]

theorem stepStatus_find_target (db0 : List Record) (tid : Int) (client : Record)
    (s : String) (hf : db0.find? (fun c => c.id == tid) = some client) :
    (stepStatus db0 tid client s).find? (fun c => c.id == tid) =
      some { client with status := s, priority := ((lane db0 s).length : Int) + 1 } := by
  have h1 := find_tid_updateStatus db0 s tid
  rw [hf] at h1
  have h2 := find_tid_applyRanksFrom tid (oldLaneOf db0 client.status tid)
    (updateStatus db0 tid s) 1 (oldLaneOf_id_ne db0 client.status tid)
  rw [h1] at h2
  have h3 := find_tid_updatePriority_eq
    (applyRanksFrom (updateStatus db0 tid s) 1 (oldLaneOf db0 client.status tid))
    (((lane db0 s).length : Int) + 1) tid
  rw [h2] at h3
  unfold stepStatus applyRanks
  rw [h3]
  rfl

theorem stepStatus_idsNodup (db0 : List Record) (tid : Int) (client : Record)
    (s : String) (hnd : idsNodup db0) : idsNodup (stepStatus db0 tid client s) := by
  unfold idsNodup
  rw [stepStatus_map_id]
  exact hnd

theorem stepStatus_dbValid (db0 : List Record) (tid : Int) (client : Record)
    (s : String) (hnd : idsNodup db0) (hmem : client ∈ db0)
    (hcid : client.id = tid) (hd : client.status ≠ s) (hv : dbValid db0) :
    dbValid (stepStatus db0 tid client s) := by
  rw [dbValid_iff_all] at hv ⊢
  intro t
  by_cases ht1 : t = client.status
  · subst ht1
    unfold laneValid
    rw [stepStatus_lane_old db0 tid client s hnd hmem hcid hd,
      rerankFrom_map_priority, rerankFrom_length]
    exact List.Perm.refl _
  · by_cases ht2 : t = s
    · subst ht2
      unfold laneValid
      have hp := stepStatus_lane_dest db0 tid client t hnd hmem hcid hd
      have hlen : (lane (stepStatus db0 tid client t) t).length =
          (lane db0 t).length + 1 := by
        rw [hp.length_eq]
        rfl
      rw [hlen]
      have h2 := hp.map Record.priority
      rw [List.map_cons] at h2
      have h2b : ((lane (stepStatus db0 tid client t) t).map Record.priority).Perm
          ((((lane db0 t).length : Int) + 1) :: (lane db0 t).map Record.priority) := by
        simpa using h2
      have h3 : ((lane db0 t).map Record.priority).Perm
          (ranks (lane db0 t).length) := hv t
      exact h2b.trans ((h3.cons _).trans (ranks_succ_perm _).symm)
    · unfold laneValid
      rw [stepStatus_lane_other db0 tid client s t hnd hmem hcid ht1 ht2]
      exact hv t

theorem statusPhase_none (db0 : List Record) (tid : Int) :
    statusPhase db0 tid none = db0 := by
  unfold statusPhase
  cases db0.find? (fun c => c.id == tid) <;> rfl

theorem statusPhase_guard (db0 : List Record) (tid : Int) (client : Record)
    (s : String) (hf : db0.find? (fun c => c.id == tid) = some client)
    (hs : s ≠ "") (hd : client.status ≠ s) :
    statusPhase db0 tid (some s) = stepStatus db0 tid client s := by
  unfold statusPhase
  rw [hf]
  exact if_pos ⟨hs, hd⟩

theorem statusPhase_noguard (db0 : List Record) (tid : Int) (client : Record)
    (s : String) (hf : db0.find? (fun c => c.id == tid) = some client)
    (h : ¬(s ≠ "" ∧ client.status ≠ s)) :
    statusPhase db0 tid (some s) = db0 := by
  unfold statusPhase
  rw [hf]
  exact if_neg h

theorem statusPhase_nofind (db0 : List Record) (tid : Int) (st : Option String)
    (hf : db0.find? (fun c => c.id == tid) = none) :
    statusPhase db0 tid st = db0 := by
  unfold statusPhase
  rw [hf]

theorem effStatus_some (client : Record) (s : String) :
    effStatus client (some s) = if s = "" then client.status else s := rfl

theorem effStatus_none (client : Record) : effStatus client none = client.status := rfl

theorem statusPhase_map_id (db0 : List Record) (tid : Int) (st : Option String) :
    (statusPhase db0 tid st).map Record.id = db0.map Record.id := by
  cases hf : db0.find? (fun c => c.id == tid) with
  | none => rw [statusPhase_nofind db0 tid st hf]
  | some client =>
    cases st with
    | none => rw [statusPhase_none]
    | some s =>
      by_cases hg : s ≠ "" ∧ client.status ≠ s
      · rw [statusPhase_guard db0 tid client s hf hg.1 hg.2, stepStatus_map_id]
      · rw [statusPhase_noguard db0 tid client s hf hg]

theorem statusPhase_idsNodup (db0 : List Record) (tid : Int) (st : Option String)
    (hnd : idsNodup db0) : idsNodup (statusPhase db0 tid st) := by
  unfold idsNodup
  rw [statusPhase_map_id]
  exact hnd

theorem statusPhase_dbValid (db0 : List Record) (tid : Int) (st : Option String)
    (hnd : idsNodup db0) (hv : dbValid db0) : dbValid (statusPhase db0 tid st) := by
  cases hf : db0.find? (fun c => c.id == tid) with
  | none =>
    rw [statusPhase_nofind db0 tid st hf]
    exact hv
  | some client =>
    cases st with
    | none =>
      rw [statusPhase_none]
      exact hv
    | some s =>
      by_cases hg : s ≠ "" ∧ client.status ≠ s
      · rw [statusPhase_guard db0 tid client s hf hg.1 hg.2]
        exact stepStatus_dbValid db0 tid client s hnd
          (List.mem_of_find?_eq_some hf)
          (by simpa using List.find?_some hf) hg.2 hv
      · rw [statusPhase_noguard db0 tid client s hf hg]
        exact hv

theorem statusPhase_target_row (db0 : List Record) (tid : Int) (st : Option String)
    (client : Record) (hf : db0.find? (fun c => c.id == tid) = some client) :
    ∃ row, (statusPhase db0 tid st).find? (fun c => c.id == tid) = some row ∧
      row.id = tid ∧ row.status = effStatus client st := by
  have hcid : client.id = tid := by simpa using List.find?_some hf
  cases st with
  | none =>
    rw [statusPhase_none]
    exact ⟨client, hf, hcid, rfl⟩
  | some s =>
    by_cases hg : s ≠ "" ∧ client.status ≠ s
    · rw [statusPhase_guard db0 tid client s hf hg.1 hg.2]
      refine ⟨_, stepStatus_find_target db0 tid client s hf, hcid, ?_⟩
      show s = effStatus client (some s)
      rw [effStatus_some, if_neg hg.1]
    · rw [statusPhase_noguard db0 tid client s hf hg]
      refine ⟨client, hf, hcid, ?_⟩
      show client.status = effStatus client (some s)
      rw [effStatus_some]
      by_cases hse : s = ""
      · rw [if_pos hse]
      · rw [if_neg hse]
        push_neg at hg
        exact hg hse

/-! ### The priority block -/

theorem lane_ids_nodup (db : List Record) (t : String) (hnd : idsNodup db) :
    idsNodup (lane db t) := by
  unfold idsNodup lane
  exact List.Nodup.sublist (List.Sublist.map Record.id (List.filter_sublist db)) hnd

theorem sortByPriority_perm (l : List Record) : (sortByPriority l).Perm l :=
  List.perm_insertionSort _ _

theorem sortLane_ids_nodup (db : List Record) (t : String) (hnd : idsNodup db) :
    idsNodup (sortByPriority (lane db t)) := by
  unfold idsNodup
  exact ((sortByPriority_perm (lane db t)).map Record.id).nodup_iff.mpr
    (lane_ids_nodup db t hnd)

theorem swimOf_eq_filter_not (db : List Record) (t : String) (tid : Int) :
    swimOf db t tid = (sortByPriority (lane db t)).filter (fun c => !(c.id == tid)) := by
  unfold swimOf
  exact List.filter_congr (fun c _ => rfl)

theorem swim_ids_nodup (db : List Record) (t : String) (tid : Int)
    (hnd : idsNodup db) : idsNodup (swimOf db t tid) := by
  unfold idsNodup swimOf
  exact List.Nodup.sublist (List.Sublist.map Record.id (List.filter_sublist _))
    (sortLane_ids_nodup db t hnd)

theorem swim_id_ne (db : List Record) (t : String) (tid : Int) :
    ∀ x ∈ swimOf db t tid, x.id ≠ tid := by
  intro x hx
  unfold swimOf at hx
  rw [List.mem_filter] at hx
  simpa using hx.2

theorem tid_not_mem_swim_ids (db : List Record) (t : String) (tid : Int) :
    tid ∉ (swimOf db t tid).map Record.id := by
  intro hmem
  obtain ⟨x, hx, hxid⟩ := List.mem_map.mp hmem
  exact swim_id_ne db t tid x hx hxid

theorem swim_mem (db : List Record) (t : String) (tid : Int) :
    ∀ x ∈ swimOf db t tid, x ∈ db ∧ x.status = t := by
  intro x hx
  unfold swimOf at hx
  rw [List.mem_filter] at hx
  exact mem_lane.mp ((sortByPriority_perm (lane db t)).mem_iff.mp hx.1)

theorem sortLane_perm_row_swim (db : List Record) (t : String) (tid : Int)
    (row : Record) (hnd : idsNodup db) (hrow : row ∈ db) (hrid : row.id = tid)
    (hrs : row.status = t) :
    (sortByPriority (lane db t)).Perm (row :: swimOf db t tid) := by
  have hrl : row ∈ sortByPriority (lane db t) :=
    (sortByPriority_perm _).mem_iff.mpr (mem_lane.mpr ⟨hrow, hrs⟩)
  have hsing : (sortByPriority (lane db t)).filter (fun c => c.id == tid) = [row] := by
    have h := filter_eq_singleton_of_nodup (sortByPriority (lane db t)) row
      (sortLane_ids_nodup db t hnd) hrl
    rw [hrid] at h
    exact h
  have happ := List.filter_append_perm (fun c => c.id == tid)
    (sortByPriority (lane db t))
  rw [hsing] at happ
  rw [swimOf_eq_filter_not]
  exact happ.symm

theorem lane_perm_row_swim (db : List Record) (t : String) (tid : Int)
    (row : Record) (hnd : idsNodup db) (hrow : row ∈ db) (hrid : row.id = tid)
    (hrs : row.status = t) :
    (lane db t).Perm (row :: swimOf db t tid) :=
  (sortByPriority_perm _).symm.trans (sortLane_perm_row_swim db t tid row hnd hrow hrid hrs)

theorem newSeq_ids_nodup (db : List Record) (t : String) (tid : Int)
    (client : Record) (n : Nat) (hnd : idsNodup db) (hcid : client.id = tid) :
    idsNodup (splice n client (swimOf db t tid)) := by
  unfold idsNodup
  apply ((splice_perm n client (swimOf db t tid)).map Record.id).nodup_iff.mpr
  rw [List.map_cons, List.nodup_cons]
  refine ⟨?_, swim_ids_nodup db t tid hnd⟩
  rw [hcid]
  exact tid_not_mem_swim_ids db t tid

theorem applyRanks_newSeq_eq_map (db : List Record) (t : String) (tid : Int)
    (client : Record) (n : Nat) (hnd : idsNodup db) (hcid : client.id = tid) :
    applyRanks db (splice n client (swimOf db t tid)) =
      db.map (prioAssign (splice n client (swimOf db t tid)) 1) := by
  unfold applyRanks
  exact applyRanksFrom_eq_map _ _ _ (newSeq_ids_nodup db t tid client n hnd hcid)

theorem priority_lane_other (db : List Record) (t : String) (tid : Int)
    (client row : Record) (n : Nat) (hnd : idsNodup db) (hrow : row ∈ db)
    (hrid : row.id = tid) (hrs : row.status = t) (hcid : client.id = tid)
    (t' : String) (ht' : t' ≠ t) :
    lane (applyRanks db (splice n client (swimOf db t tid))) t' = lane db t' := by
  rw [applyRanks_newSeq_eq_map db t tid client n hnd hcid]
  rw [lane_map _ (fun c => prioAssign_status _ _ _)]
  rw [show (lane db t').map (prioAssign (splice n client (swimOf db t tid)) 1) =
      List.map id (lane db t') from List.map_congr_left ?pw, List.map_id]
  case pw =>
    intro c hc
    obtain ⟨hcdb, hcs⟩ := mem_lane.mp hc
    apply prioAssign_of_not_mem
    intro hmem
    have hmem2 : c.id ∈ (client :: swimOf db t tid).map Record.id :=
      ((splice_perm n client (swimOf db t tid)).map Record.id).mem_iff.mp hmem
    rw [List.map_cons, List.mem_cons] at hmem2
    rcases hmem2 with h1 | h2
    · have hcr : c = row := eq_of_id_eq hnd hcdb hrow (by rw [h1, hcid, hrid])
      exact ht' (by rw [← hcs, hcr, hrs])
    · obtain ⟨x, hx, hxid⟩ := List.mem_map.mp h2
      obtain ⟨hxdb, hxs⟩ := swim_mem db t tid x hx
      have hxc : x = c := eq_of_id_eq hnd hxdb hcdb hxid
      exact ht' (by rw [← hcs, ← hxc, hxs])

theorem priority_lane_valid (db : List Record) (t : String) (tid : Int)
    (client row : Record) (n : Nat) (hnd : idsNodup db) (hrow : row ∈ db)
    (hrid : row.id = tid) (hrs : row.status = t) (hcid : client.id = tid) :
    laneValid (applyRanks db (splice n client (swimOf db t tid))) t := by
  have hlperm : (lane db t).Perm (row :: swimOf db t tid) :=
    lane_perm_row_swim db t tid row hnd hrow hrid hrs
  have hsperm := splice_perm n client (swimOf db t tid)
  have hmid : (row :: swimOf db t tid).map Record.id =
      (client :: swimOf db t tid).map Record.id := by
    rw [List.map_cons, List.map_cons, hrid, hcid]
  have hidperm : ((lane db t).map Record.id).Perm
      ((splice n client (swimOf db t tid)).map Record.id) := by
    refine (hlperm.map Record.id).trans ?_
    rw [hmid]
    exact (hsperm.map Record.id).symm
  have hseqnodup := newSeq_ids_nodup db t tid client n hnd hcid
  unfold laneValid
  rw [applyRanks_newSeq_eq_map db t tid client n hnd hcid]
  rw [lane_map _ (fun c => prioAssign_status _ _ _)]
  have hlen2 : (lane db t).length = (splice n client (swimOf db t tid)).length := by
    simpa using hidperm.length_eq
  rw [List.length_map, hlen2]
  have e1 : ((lane db t).map (prioAssign (splice n client (swimOf db t tid)) 1)).map
        Record.priority =
      ((lane db t).map Record.id).map
        (rankFromIds ((splice n client (swimOf db t tid)).map Record.id) 1) := by
    rw [List.map_map, List.map_map]
    apply List.map_congr_left
    intro c hc
    simp only [Function.comp]
    exact prioAssign_priority_of_mem _ _ _
      (hidperm.mem_iff.mp (List.mem_map_of_mem Record.id hc))
  rw [e1]
  have e3 : ((splice n client (swimOf db t tid)).map Record.id).map
        (rankFromIds ((splice n client (swimOf db t tid)).map Record.id) 1) =
      ranks (splice n client (swimOf db t tid)).length := by
    rw [rankFromIds_map_self _ 1 hseqnodup, List.length_map]
    rfl
  rw [← e3]
  exact hidperm.map _

theorem priorityPhase_dbValid_core (db : List Record) (t : String) (tid : Int)
    (client row : Record) (n : Nat) (hnd : idsNodup db) (hv : dbValid db)
    (hrow : row ∈ db) (hrid : row.id = tid) (hrs : row.status = t)
    (hcid : client.id = tid) :
    dbValid (applyRanks db (splice n client (swimOf db t tid))) := by
  rw [dbValid_iff_all] at hv ⊢
  intro t2
  by_cases ht2 : t2 = t
  · subst ht2
    exact priority_lane_valid db t2 tid client row n hnd hrow hrid hrs hcid
  · unfold laneValid
    rw [priority_lane_other db t tid client row n hnd hrow hrid hrs hcid t2 ht2]
    exact hv t2

/-! ### Unfolding the handler -/

theorem putClient_nofind (db0 : List Record) (tid : Int) (st : Option String)
    (pr : Option Int) (hf : db0.find? (fun c => c.id == tid) = none) :
    putClient db0 tid st pr = ⟨db0, Response.invalidId⟩ := by
  unfold putClient
  rw [hf]

theorem putClient_pr_none (db0 : List Record) (tid : Int) (st : Option String)
    (client : Record) (hf : db0.find? (fun c => c.id == tid) = some client) :
    putClient db0 tid st none =
      ⟨statusPhase db0 tid st, Response.ok (sortedView (statusPhase db0 tid st))⟩ := by
  unfold putClient
  rw [hf]

theorem putClient_pr_zero (db0 : List Record) (tid : Int) (st : Option String)
    (client : Record) (hf : db0.find? (fun c => c.id == tid) = some client) :
    putClient db0 tid st (some 0) =
      ⟨statusPhase db0 tid st, Response.ok (sortedView (statusPhase db0 tid st))⟩ := by
  unfold putClient
  rw [hf]
  rfl

theorem putClient_pr_some (db0 : List Record) (tid : Int) (st : Option String)
    (client : Record) (p : Int)
    (hf : db0.find? (fun c => c.id == tid) = some client) (hp : p ≠ 0) :
    putClient db0 tid st (some p) =
      priorityPhase (statusPhase db0 tid st) tid client (effStatus client st) p := by
  unfold putClient
  rw [hf]
  exact if_neg hp

theorem priorityPhase_invalid (db1 : List Record) (tid : Int) (client : Record)
    (t : String) (p : Int)
    (h : p < 1 ∨ (((swimOf db1 t tid).length : Int) + 1) < p) :
    priorityPhase db1 tid client t p =
      ⟨db1, Response.invalidPriority (((swimOf db1 t tid).length : Int) + 1)⟩ := by
  unfold priorityPhase
  rw [if_pos h]

theorem priorityPhase_valid (db1 : List Record) (tid : Int) (client : Record)
    (t : String) (p : Int)
    (h : ¬(p < 1 ∨ (((swimOf db1 t tid).length : Int) + 1) < p)) :
    priorityPhase db1 tid client t p =
      ⟨applyRanks db1 (splice (p - 1).toNat client (swimOf db1 t tid)),
        Response.ok (sortedView
          (applyRanks db1 (splice (p - 1).toNat client (swimOf db1 t tid))))⟩ := by
  unfold priorityPhase
  rw [if_neg h]

/-- C2: for every snapshot whose lanes each carry priorities exactly
`{1, …, N}` (and whose ids are unique, as the data model requires), any
invocation of the engine that returns the 200 success response leaves every
lane of the persisted record set with priorities exactly `{1, …, N}` for its
new size `N` — after a lane change, an in-lane reorder, a combined call, or a
no-op. -/
theorem put_preserves_rank_invariant (db0 : List Record) (tid : Int)
    (st : Option String) (pr : Option Int) (hnd : idsNodup db0) (hv : dbValid db0)
    (hok : (putClient db0 tid st pr).resp.isOk = true) :
    dbValid (putClient db0 tid st pr).db := by
  cases hf : db0.find? (fun c => c.id == tid) with
  | none =>
    rw [putClient_nofind db0 tid st pr hf]
    exact hv
  | some client =>
    have h1v : dbValid (statusPhase db0 tid st) := statusPhase_dbValid db0 tid st hnd hv
    have h1nd : idsNodup (statusPhase db0 tid st) := statusPhase_idsNodup db0 tid st hnd
    cases pr with
    | none =>
      rw [putClient_pr_none db0 tid st client hf]
      exact h1v
    | some p =>
      by_cases hp : p = 0
      · subst hp
        rw [putClient_pr_zero db0 tid st client hf]
        exact h1v
      · rw [putClient_pr_some db0 tid st client p hf hp] at hok ⊢
        by_cases hval : p < 1 ∨
          (((swimOf (statusPhase db0 tid st) (effStatus client st) tid).length : Int) + 1) < p
        · rw [priorityPhase_invalid _ tid client _ p hval] at hok
          simp [Response.isOk] at hok
        · rw [priorityPhase_valid _ tid client _ p hval]
          obtain ⟨row, hfr, hrid, hrs⟩ := statusPhase_target_row db0 tid st client hf
          exact priorityPhase_dbValid_core (statusPhase db0 tid st)
            (effStatus client st) tid client row ((p - 1).toNat) h1nd h1v
            (List.mem_of_find?_eq_some hfr) hrid hrs
            (by simpa using List.find?_some hf)

/-- Witness for C2: a combined lane change plus reorder on a concrete valid
snapshot keeps every lane gap-free and duplicate-free. -/
theorem put_preserves_rank_invariant_witness :
    idsNodup [⟨1, ("backlog"), 1⟩, ⟨2, ("backlog"), 2⟩, ⟨3, ("in-progress"), 1⟩] ∧
    dbValid [⟨1, ("backlog"), 1⟩, ⟨2, ("backlog"), 2⟩, ⟨3, ("in-progress"), 1⟩] ∧
    (putClient [⟨1, ("backlog"), 1⟩, ⟨2, ("backlog"), 2⟩, ⟨3, ("in-progress"), 1⟩]
      1 (some ("in-progress")) (some 1)).resp.isOk = true ∧
    dbValid (putClient [⟨1, ("backlog"), 1⟩, ⟨2, ("backlog"), 2⟩, ⟨3, ("in-progress"), 1⟩]
      1 (some ("in-progress")) (some 1)).db :=
  ⟨by decide, by decide, by decide,
    put_preserves_rank_invariant _ 1 _ _ (by decide) (by decide) (by decide)⟩

/-- C1: the handler is not fail-closed. Combining a lane change with an
out-of-range newPriority in one invocation commits the lane-change writes
(status update, old-lane re-rank, append at destination) and only then
reports the priority failure, so the persisted record set differs from the
input snapshot even though the response is InvalidPriority. The claim
requires zero writes whenever any validation fails. -/
theorem put_partial_writes_on_combined_invalid_priority :
    putClient [⟨1, ("backlog"), 1⟩, ⟨2, ("in-progress"), 1⟩] 1
        (some ("in-progress")) (some 5) =
      ⟨[⟨1, ("in-progress"), 2⟩, ⟨2, ("in-progress"), 1⟩],
        Response.invalidPriority 2⟩ ∧
    [⟨1, ("in-progress"), 2⟩, ⟨2, ("in-progress"), 1⟩] ≠
      [(⟨1, ("backlog"), 1⟩ : Record), ⟨2, ("in-progress"), 1⟩] := by
  decide

/-- C4: the handler never validates newStatus. An unrecognized lane value is
accepted: the record's status is overwritten with the bogus string and the
call returns 200 after performing writes. There is no InvalidStatus code
path at all, contradicting the claim that such a call fails with
InvalidStatus and performs no writes. -/
theorem put_accepts_unrecognized_status :
    putClient [⟨1, ("backlog"), 1⟩] 1 (some ("bogus")) none =
      ⟨[⟨1, ("bogus"), 1⟩], Response.ok [⟨1, ("bogus"), 1⟩]⟩ ∧
    [⟨1, ("bogus"), 1⟩] ≠ [(⟨1, ("backlog"), 1⟩ : Record)] := by
  decide

/-- C3: newPriority = 0 is falsy in JavaScript, so `if (priority)` skips the
whole priority block and the request succeeds with no error and no writes —
the `priority < 1` range check that would reject it is unreachable for 0.
In a two-record backlog with target id 1 (sequence length N = 1 excluding
the target), priority 0 yields 200 with the snapshot unchanged, while the
nonzero out-of-range priority 3 = N+2 is duly rejected with the computed
bound N+1 = 2 and no writes. -/
theorem put_priority_zero_not_rejected :
    putClient [⟨1, ("backlog"), 1⟩, ⟨2, ("backlog"), 2⟩] 1 none (some 0) =
      ⟨[⟨1, ("backlog"), 1⟩, ⟨2, ("backlog"), 2⟩],
        Response.ok [⟨1, ("backlog"), 1⟩, ⟨2, ("backlog"), 2⟩]⟩ ∧
    putClient [⟨1, ("backlog"), 1⟩, ⟨2, ("backlog"), 2⟩] 1 none (some 3) =
      ⟨[⟨1, ("backlog"), 1⟩, ⟨2, ("backlog"), 2⟩], Response.invalidPriority 2⟩ := by
  decide

/-- C9: a call whose newStatus is absent or equal to the target's current
status and whose newPriority is absent performs no writes: the persisted
table is exactly the input snapshot, and the 200 response presents that
unchanged snapshot ordered by (status, priority) — a permutation of the
snapshot. -/
theorem put_noop_returns_snapshot (db0 : List Record) (tid : Int)
    (st : Option String) (client : Record)
    (hf : db0.find? (fun c => c.id == tid) = some client)
    (hst : st = none ∨ st = some client.status) :
    putClient db0 tid st none = ⟨db0, Response.ok (sortedView db0)⟩ ∧
      (sortedView db0).Perm db0 := by
  constructor
  · rw [putClient_pr_none db0 tid st client hf]
    have hsp : statusPhase db0 tid st = db0 := by
      rcases hst with rfl | rfl
      · exact statusPhase_none db0 tid
      · exact statusPhase_noguard db0 tid client client.status hf (by simp)
    rw [hsp]
  · exact List.perm_insertionSort _ _

/-- Witness for C9: a no-op call (newStatus equal to the current status, no
newPriority) on a two-record lane stored out of priority order. -/
theorem put_noop_returns_snapshot_witness :
    List.find? (fun c : Record => c.id == 1) [⟨1, ("backlog"), 2⟩, ⟨2, ("backlog"), 1⟩] =
      some ⟨1, ("backlog"), 2⟩ ∧
    (putClient [⟨1, ("backlog"), 2⟩, ⟨2, ("backlog"), 1⟩] 1 (some ("backlog")) none =
      ⟨[⟨1, ("backlog"), 2⟩, ⟨2, ("backlog"), 1⟩],
        Response.ok (sortedView [⟨1, ("backlog"), 2⟩, ⟨2, ("backlog"), 1⟩])⟩ ∧
      (sortedView [⟨1, ("backlog"), 2⟩, ⟨2, ("backlog"), 1⟩]).Perm
        [⟨1, ("backlog"), 2⟩, ⟨2, ("backlog"), 1⟩]) ∧
    sortedView [⟨1, ("backlog"), 2⟩, ⟨2, ("backlog"), 1⟩] =
      [⟨2, ("backlog"), 1⟩, ⟨1, ("backlog"), 2⟩] :=
  ⟨by decide,
    put_noop_returns_snapshot _ 1 (some ("backlog")) ⟨1, ("backlog"), 2⟩
      (by decide) (Or.inr rfl),
    by decide⟩

/-! ### Further helper lemmas for the remaining claims -/

theorem idxOfInt_splice (i : Int) :
    ∀ (n : Nat) (ids : List Int), i ∉ ids → n ≤ ids.length →
      idxOfInt (splice n i ids) i = some n := by
  intro n
  induction n with
  | zero =>
    intro ids _ _
    show idxOfInt (i :: ids) i = some 0
    simp [idxOfInt]
  | succ n ih =>
    intro ids hni hlen
    cases ids with
    | nil => simp at hlen
    | cons x xs =>
      show idxOfInt (x :: splice n i xs) i = some (n + 1)
      have hxi : ¬(x == i) = true := by
        simp only [beq_iff_eq]
        intro he
        exact hni (he ▸ List.mem_cons_self x xs)
      rw [show idxOfInt (x :: splice n i xs) i =
          if x == i then some 0 else (idxOfInt (splice n i xs) i).map (· + 1) from rfl]
      rw [if_neg hxi, ih xs (fun hm => hni (List.mem_cons_of_mem x hm))
        (by simpa using hlen)]
      rfl

theorem priorityPhase_congr_client (db1 : List Record) (tid : Int) (t : String)
    (p : Int) (c1 c2 : Record) (hid : c1.id = c2.id) :
    priorityPhase db1 tid c1 t p = priorityPhase db1 tid c2 t p := by
  unfold priorityPhase
  by_cases h : p < 1 ∨ (((swimOf db1 t tid).length : Int) + 1) < p
  · rw [if_pos h, if_pos h]
  · rw [if_neg h, if_neg h]
    have hsame : applyRanks db1 (splice (p - 1).toNat c1 (swimOf db1 t tid)) =
        applyRanks db1 (splice (p - 1).toNat c2 (swimOf db1 t tid)) := by
      unfold applyRanks
      apply applyRanksFrom_congr_ids
      rw [splice_map, splice_map, hid]
    rw [hsame]

theorem find_eq_of_filter_singleton (pred : Record → Bool) (c : Record) :
    ∀ db : List Record, db.filter pred = [c] → db.find? pred = some c := by
  intro db
  induction db with
  | nil => intro h; simp at h
  | cons a as ih =>
    intro h
    cases hpa : pred a with
    | true =>
      rw [List.filter_cons_of_pos hpa] at h
      injection h with h1 h2
      rw [List.find?_cons_of_pos _ hpa, h1]
    | false =>
      rw [List.filter_cons_of_neg (by simp [hpa])] at h
      rw [List.find?_cons_of_neg _ (by simp [hpa])]
      exact ih h

theorem find_self_of_nodup (db : List Record) (c : Record) (hnd : idsNodup db)
    (hc : c ∈ db) : db.find? (fun x => x.id == c.id) = some c :=
  find_eq_of_filter_singleton _ c db (filter_eq_singleton_of_nodup db c hnd hc)

theorem oldLaneOf_eq_lane_filter (db0 : List Record) (cs : String) (tid : Int) :
    oldLaneOf db0 cs tid = (lane db0 cs).filter (fun c => !(c.id == tid)) := by
  unfold oldLaneOf lane
  rw [List.filter_filter]
  apply List.filter_congr
  intro c _
  rw [Bool.and_comm]
  rfl

theorem oldLaneOf_length (db0 : List Record) (client : Record) (tid : Int)
    (hnd : idsNodup db0) (hmem : client ∈ db0) (hcid : client.id = tid) :
    (oldLaneOf db0 client.status tid).length + 1 = (lane db0 client.status).length := by
  have hcl : client ∈ lane db0 client.status := mem_lane.mpr ⟨hmem, rfl⟩
  have hsing : (lane db0 client.status).filter (fun c => c.id == tid) = [client] := by
    have h := filter_eq_singleton_of_nodup (lane db0 client.status) client
      (lane_ids_nodup db0 client.status hnd) hcl
    rw [hcid] at h
    exact h
  have happ := List.filter_append_perm (fun c => c.id == tid) (lane db0 client.status)
  rw [hsing] at happ
  have h2 : ((lane db0 client.status).filter (fun c => !(c.id == tid))).length + 1 =
      (lane db0 client.status).length := by
    simpa using happ.length_eq
  rw [oldLaneOf_eq_lane_filter]
  omega

/-- Counterexample to C5 as stated: in the valid snapshot whose backlog rows
occur in the order [{1, priority 2}, {2, priority 3}, {3, priority 1}],
moving id 2 to the complete lane re-ranks the remaining backlog records in
ROW order, so id 1 (original priority 2) receives rank 1 while id 3 — the
record with the smallest original priority, which the claim says must get
rank 1 — receives rank 2. -/
theorem put_old_lane_rerank_not_by_priority :
    ((putClient [⟨1, ("backlog"), 2⟩, ⟨2, ("backlog"), 3⟩, ⟨3, ("backlog"), 1⟩]
        2 (some ("complete")) none).db.find? (fun c => c.id == 3)) =
      some ⟨3, ("backlog"), 2⟩ ∧
    ¬(((putClient [⟨1, ("backlog"), 2⟩, ⟨2, ("backlog"), 3⟩, ⟨3, ("backlog"), 1⟩]
        2 (some ("complete")) none).db.find? (fun c => c.id == 3)) =
      some ⟨3, ("backlog"), 1⟩) ∧
    dbValid [⟨1, ("backlog"), 2⟩, ⟨2, ("backlog"), 3⟩, ⟨3, ("backlog"), 1⟩] := by
  decide

/-- C5 (amended): on every lane change the records remaining in the old lane
are reassigned ranks 1..M in their snapshot row order — the order the rows
occur in the record set — rather than by ascending original priority: the
old lane of the resulting record set is exactly the old-lane row sequence
(excluding the target) with priorities 1..M reassigned in place. The two
orders coincide only when the lane's rows happen to be stored in ascending
priority order. -/
theorem put_old_lane_rerank_row_order (db0 : List Record) (tid : Int) (s : String)
    (pr : Option Int) (client : Record)
    (hf : db0.find? (fun c => c.id == tid) = some client)
    (hnd : idsNodup db0) (hs : s ≠ "") (hd : client.status ≠ s) :
    lane (putClient db0 tid (some s) pr).db client.status =
      rerankFrom 1 (oldLaneOf db0 client.status tid) := by
  have hmem := List.mem_of_find?_eq_some hf
  have hcid : client.id = tid := by simpa using List.find?_some hf
  have hsp : statusPhase db0 tid (some s) = stepStatus db0 tid client s :=
    statusPhase_guard db0 tid client s hf hs hd
  have hlane1 : lane (stepStatus db0 tid client s) client.status =
      rerankFrom 1 (oldLaneOf db0 client.status tid) :=
    stepStatus_lane_old db0 tid client s hnd hmem hcid hd
  cases pr with
  | none =>
    rw [putClient_pr_none db0 tid (some s) client hf]
    show lane (statusPhase db0 tid (some s)) client.status = _
    rw [hsp]
    exact hlane1
  | some p =>
    by_cases hp : p = 0
    · subst hp
      rw [putClient_pr_zero db0 tid (some s) client hf]
      show lane (statusPhase db0 tid (some s)) client.status = _
      rw [hsp]
      exact hlane1
    · rw [putClient_pr_some db0 tid (some s) client p hf hp]
      have heff : effStatus client (some s) = s := by
        rw [effStatus_some, if_neg hs]
      by_cases hval : p < 1 ∨
        (((swimOf (statusPhase db0 tid (some s)) (effStatus client (some s)) tid).length : Int) + 1) < p
      · rw [priorityPhase_invalid _ tid client _ p hval]
        show lane (statusPhase db0 tid (some s)) client.status = _
        rw [hsp]
        exact hlane1
      · rw [priorityPhase_valid _ tid client _ p hval]
        show lane (applyRanks (statusPhase db0 tid (some s))
          (splice (p - 1).toNat client
            (swimOf (statusPhase db0 tid (some s)) (effStatus client (some s)) tid)))
            client.status = _
        obtain ⟨row, hfr, hrid, hrs⟩ := statusPhase_target_row db0 tid (some s) client hf
        rw [priority_lane_other (statusPhase db0 tid (some s)) (effStatus client (some s))
          tid client row ((p - 1).toNat) (statusPhase_idsNodup db0 tid (some s) hnd)
          (List.mem_of_find?_eq_some hfr) hrid hrs hcid client.status
          (by rw [heff]; exact hd)]
        rw [hsp]
        exact hlane1

/-- Witness for the amended C5 on the counterexample snapshot: the resulting
old lane is the row-order sequence [id 1, id 3] re-ranked to 1, 2. -/
theorem put_old_lane_rerank_row_order_witness :
    List.find? (fun c : Record => c.id == 2)
      [⟨1, ("backlog"), 2⟩, ⟨2, ("backlog"), 3⟩, ⟨3, ("backlog"), 1⟩] =
      some ⟨2, ("backlog"), 3⟩ ∧
    lane (putClient [⟨1, ("backlog"), 2⟩, ⟨2, ("backlog"), 3⟩, ⟨3, ("backlog"), 1⟩]
        2 (some ("complete")) none).db ("backlog") =
      rerankFrom 1 (oldLaneOf
        [⟨1, ("backlog"), 2⟩, ⟨2, ("backlog"), 3⟩, ⟨3, ("backlog"), 1⟩] ("backlog") 2) ∧
    rerankFrom 1 (oldLaneOf
        [⟨1, ("backlog"), 2⟩, ⟨2, ("backlog"), 3⟩, ⟨3, ("backlog"), 1⟩] ("backlog") 2) =
      [⟨1, ("backlog"), 1⟩, ⟨3, ("backlog"), 2⟩] :=
  ⟨by decide,
    put_old_lane_rerank_row_order _ 2 ("complete") none ⟨2, ("backlog"), 3⟩
      (by decide) (by decide) (by decide) (by decide),
    by decide⟩

/-- C6: a lane change with no newPriority gives the moved record status
newStatus and rank K+1 where K is the destination lane's current size, and
re-ranks the old lane's remaining records to exactly 1..(oldSize-1); the call
succeeds with the sorted view of the result. -/
theorem put_lane_change_default_placement (db0 : List Record) (tid : Int)
    (s : String) (client : Record)
    (hf : db0.find? (fun c => c.id == tid) = some client)
    (hnd : idsNodup db0) (hs : s ≠ "") (hd : client.status ≠ s) :
    (putClient db0 tid (some s) none).db.find? (fun c => c.id == tid) =
      some { client with status := s, priority := ((lane db0 s).length : Int) + 1 } ∧
    (lane (putClient db0 tid (some s) none).db client.status).map Record.priority =
      ranks (oldLaneOf db0 client.status tid).length ∧
    (oldLaneOf db0 client.status tid).length + 1 = (lane db0 client.status).length ∧
    (putClient db0 tid (some s) none).resp =
      Response.ok (sortedView (putClient db0 tid (some s) none).db) := by
  have hmem := List.mem_of_find?_eq_some hf
  have hcid : client.id = tid := by simpa using List.find?_some hf
  have hsp : statusPhase db0 tid (some s) = stepStatus db0 tid client s :=
    statusPhase_guard db0 tid client s hf hs hd
  rw [putClient_pr_none db0 tid (some s) client hf]
  refine ⟨?_, ?_, ?_, rfl⟩
  · show (statusPhase db0 tid (some s)).find? (fun c => c.id == tid) = _
    rw [hsp]
    exact stepStatus_find_target db0 tid client s hf
  · show (lane (statusPhase db0 tid (some s)) client.status).map Record.priority = _
    rw [hsp, stepStatus_lane_old db0 tid client s hnd hmem hcid hd,
      rerankFrom_map_priority]
    rfl
  · exact oldLaneOf_length db0 client tid hnd hmem hcid

/-- Witness for C6: moving record 4 from lane c into lane b of size 3 places
it at rank 4 and leaves the old lane (one other record) re-ranked to 1. -/
theorem put_lane_change_default_placement_witness :
    List.find? (fun c : Record => c.id == 4)
      [⟨1, ("b"), 1⟩, ⟨2, ("b"), 2⟩, ⟨3, ("b"), 3⟩, ⟨4, ("c"), 1⟩, ⟨5, ("c"), 2⟩] =
      some ⟨4, ("c"), 1⟩ ∧
    ((putClient [⟨1, ("b"), 1⟩, ⟨2, ("b"), 2⟩, ⟨3, ("b"), 3⟩, ⟨4, ("c"), 1⟩, ⟨5, ("c"), 2⟩]
        4 (some ("b")) none).db.find? (fun c => c.id == 4) =
      some ⟨4, ("b"), 4⟩) ∧
    ((lane (putClient
        [⟨1, ("b"), 1⟩, ⟨2, ("b"), 2⟩, ⟨3, ("b"), 3⟩, ⟨4, ("c"), 1⟩, ⟨5, ("c"), 2⟩]
        4 (some ("b")) none).db ("c")).map Record.priority = ranks 1) := by
  refine ⟨by decide, ?_, ?_⟩
  · have h := (put_lane_change_default_placement
      [⟨1, ("b"), 1⟩, ⟨2, ("b"), 2⟩, ⟨3, ("b"), 3⟩, ⟨4, ("c"), 1⟩, ⟨5, ("c"), 2⟩]
      4 ("b") ⟨4, ("c"), 1⟩ (by decide) (by decide) (by decide) (by decide)).1
    exact h.trans (by decide)
  · have h := (put_lane_change_default_placement
      [⟨1, ("b"), 1⟩, ⟨2, ("b"), 2⟩, ⟨3, ("b"), 3⟩, ⟨4, ("c"), 1⟩, ⟨5, ("c"), 2⟩]
      4 ("b") ⟨4, ("c"), 1⟩ (by decide) (by decide) (by decide) (by decide)).2.1
    exact h.trans (by decide)

/-- C7: an in-lane reorder with a valid newPriority p (1 ≤ p ≤ N+1 for N the
lane sequence excluding the target): the engine sorts the effective lane
ascending by rank, removes the target, splices it back in at zero-based
index p−1 and reassigns ranks 1.. along the sequence — the resulting lane is
exactly that re-ranked sequence (up to storage row order), and the target's
persisted row keeps its fields with priority p. The call succeeds with the
sorted view of the result. -/
theorem put_in_lane_reorder (db0 : List Record) (tid : Int) (p : Int)
    (client : Record) (hf : db0.find? (fun c => c.id == tid) = some client)
    (hnd : idsNodup db0) (h1 : 1 ≤ p)
    (h2 : p ≤ ((swimOf db0 client.status tid).length : Int) + 1) :
    (lane (putClient db0 tid none (some p)).db client.status).Perm
      (rerankFrom 1 (splice (p - 1).toNat client (swimOf db0 client.status tid))) ∧
    (putClient db0 tid none (some p)).db.find? (fun c => c.id == tid) =
      some { client with priority := p } ∧
    (putClient db0 tid none (some p)).resp =
      Response.ok (sortedView (putClient db0 tid none (some p)).db) := by
  have hmem := List.mem_of_find?_eq_some hf
  have hcid : client.id = tid := by simpa using List.find?_some hf
  have hp0 : p ≠ 0 := by omega
  rw [putClient_pr_some db0 tid none client p hf hp0]
  rw [statusPhase_none db0 tid, effStatus_none client]
  have hval : ¬(p < 1 ∨ (((swimOf db0 client.status tid).length : Int) + 1) < p) := by
    push_neg
    constructor <;> omega
  rw [priorityPhase_valid db0 tid client client.status p hval]
  refine ⟨?_, ?_, rfl⟩
  · show (lane (applyRanks db0
      (splice (p - 1).toNat client (swimOf db0 client.status tid)))
        client.status).Perm _
    rw [applyRanks_newSeq_eq_map db0 client.status tid client ((p - 1).toNat) hnd hcid,
      lane_map _ (fun c => prioAssign_status _ _ _)]
    have hlp : (lane db0 client.status).Perm
        (splice (p - 1).toNat client (swimOf db0 client.status tid)) :=
      (lane_perm_row_swim db0 client.status tid client hnd hmem hcid rfl).trans
        (splice_perm _ _ _).symm
    have hmp := hlp.map
      (prioAssign (splice (p - 1).toNat client (swimOf db0 client.status tid)) 1)
    rw [rerank_map_self _ 1
      (newSeq_ids_nodup db0 client.status tid client _ hnd hcid)] at hmp
    exact hmp
  · show (applyRanks db0
      (splice (p - 1).toNat client (swimOf db0 client.status tid))).find?
        (fun c => c.id == tid) = _
    rw [applyRanks_newSeq_eq_map db0 client.status tid client ((p - 1).toNat) hnd hcid,
      find_id_map _ (fun c => prioAssign_id _ _ _) db0 tid, hf]
    simp only [Option.map_some']
    congr 1
    unfold prioAssign
    rw [splice_map Record.id ((p - 1).toNat) client (swimOf db0 client.status tid)]
    have hidx : idxOfInt (splice (p - 1).toNat client.id
        ((swimOf db0 client.status tid).map Record.id)) client.id =
        some ((p - 1).toNat) := by
      apply idxOfInt_splice
      · rw [hcid]
        exact tid_not_mem_swim_ids db0 client.status tid
      · rw [List.length_map]
        omega
    rw [hidx]
    exact congrArg (fun v : Int => ({ client with priority := v } : Record))
      (by rw [Int.toNat_of_nonneg (by omega : (0 : Int) ≤ p - 1)]; ring)

/-- Witness for C7: in a lane ranked 1..5 stored in order, moving the record
at rank 5 to priority 2 leaves rank 1 unchanged, puts the moved record at
rank 2, and shifts the records previously at ranks 2, 3, 4 to 3, 4, 5. -/
theorem put_in_lane_reorder_witness :
    (lane (putClient [⟨1, ("b"), 1⟩, ⟨2, ("b"), 2⟩, ⟨3, ("b"), 3⟩, ⟨4, ("b"), 4⟩,
        ⟨5, ("b"), 5⟩] 5 none (some 2)).db ("b")).Perm
      (rerankFrom 1 (splice ((2 : Int) - 1).toNat ⟨5, ("b"), 5⟩
        (swimOf [⟨1, ("b"), 1⟩, ⟨2, ("b"), 2⟩, ⟨3, ("b"), 3⟩, ⟨4, ("b"), 4⟩,
          ⟨5, ("b"), 5⟩] ("b") 5))) ∧
    ((putClient [⟨1, ("b"), 1⟩, ⟨2, ("b"), 2⟩, ⟨3, ("b"), 3⟩, ⟨4, ("b"), 4⟩,
        ⟨5, ("b"), 5⟩] 5 none (some 2)).db.find? (fun c => c.id == 5) =
      some ⟨5, ("b"), 2⟩) ∧
    (putClient [⟨1, ("b"), 1⟩, ⟨2, ("b"), 2⟩, ⟨3, ("b"), 3⟩, ⟨4, ("b"), 4⟩,
        ⟨5, ("b"), 5⟩] 5 none (some 2)).db =
      [⟨1, ("b"), 1⟩, ⟨2, ("b"), 3⟩, ⟨3, ("b"), 4⟩, ⟨4, ("b"), 5⟩, ⟨5, ("b"), 2⟩] := by
  have h := put_in_lane_reorder
    [⟨1, ("b"), 1⟩, ⟨2, ("b"), 2⟩, ⟨3, ("b"), 3⟩, ⟨4, ("b"), 4⟩, ⟨5, ("b"), 5⟩]
    5 2 ⟨5, ("b"), 5⟩ (by decide) (by decide) (by decide) (by decide)
  exact ⟨h.1, h.2.1.trans (by decide), by decide⟩

/-- C8: a combined invocation (lane change plus newPriority) behaves exactly
as the lane change executed first as its own call — appending the target to
the destination lane and re-ranking the old lane — followed by the in-lane
reorder run against the resulting table, repositioning the just-appended
record within the destination lane. The equation holds for every snapshot and
every input, including invalid ones. Concretely, moving a record into a lane
of size 3 with newPriority 1 puts it at rank 1 and shifts the three existing
records to ranks 2, 3, 4. -/
theorem put_combined_is_sequential :
    (∀ (db0 : List Record) (tid : Int) (s : String) (p : Int),
      putClient db0 tid (some s) (some p) =
        putClient (putClient db0 tid (some s) none).db tid none (some p)) ∧
    (putClient [⟨1, ("b"), 1⟩, ⟨2, ("b"), 2⟩, ⟨3, ("b"), 3⟩, ⟨4, ("c"), 1⟩]
        4 (some ("b")) (some 1)).db =
      [⟨1, ("b"), 2⟩, ⟨2, ("b"), 3⟩, ⟨3, ("b"), 4⟩, ⟨4, ("b"), 1⟩] := by
  constructor
  · intro db0 tid s p
    cases hf : db0.find? (fun c => c.id == tid) with
    | none =>
      rw [putClient_nofind db0 tid (some s) (some p) hf,
        putClient_nofind db0 tid (some s) none hf]
      show (⟨db0, Response.invalidId⟩ : Outcome) = putClient db0 tid none (some p)
      rw [putClient_nofind db0 tid none (some p) hf]
    | some client =>
      rw [putClient_pr_none db0 tid (some s) client hf]
      show putClient db0 tid (some s) (some p) =
        putClient (statusPhase db0 tid (some s)) tid none (some p)
      by_cases hg : s ≠ "" ∧ client.status ≠ s
      · have hsp := statusPhase_guard db0 tid client s hf hg.1 hg.2
        have hf1 : (statusPhase db0 tid (some s)).find? (fun c => c.id == tid) =
            some { client with status := s, priority := ((lane db0 s).length : Int) + 1 } := by
          rw [hsp]
          exact stepStatus_find_target db0 tid client s hf
        by_cases hp : p = 0
        · subst hp
          rw [putClient_pr_zero db0 tid (some s) client hf,
            putClient_pr_zero (statusPhase db0 tid (some s)) tid none _ hf1,
            statusPhase_none]
        · rw [putClient_pr_some db0 tid (some s) client p hf hp,
            putClient_pr_some (statusPhase db0 tid (some s)) tid none _ p hf1 hp,
            statusPhase_none]
          have he1 : effStatus client (some s) = s := by
            rw [effStatus_some, if_neg hg.1]
          rw [he1, effStatus_none]
          exact priorityPhase_congr_client (statusPhase db0 tid (some s)) tid s p
            client _ rfl
      · have hsp := statusPhase_noguard db0 tid client s hf hg
        rw [hsp]
        by_cases hp : p = 0
        · subst hp
          rw [putClient_pr_zero db0 tid (some s) client hf,
            putClient_pr_zero db0 tid none client hf, hsp, statusPhase_none]
        · rw [putClient_pr_some db0 tid (some s) client p hf hp,
            putClient_pr_some db0 tid none client p hf hp, hsp, statusPhase_none]
          have he : effStatus client (some s) = client.status := by
            rw [effStatus_some]
            by_cases hse : s = ""
            · rw [if_pos hse]
            · rw [if_neg hse]
              push_neg at hg
              exact (hg hse).symm
          rw [he, effStatus_none]
  · decide

theorem statusPhase_find_untouched (db0 : List Record) (tid : Int)
    (st : Option String) (client c : Record)
    (hf : db0.find? (fun x => x.id == tid) = some client) (hnd : idsNodup db0)
    (hc : c ∈ db0) (hcs : c.status ≠ client.status) :
    (statusPhase db0 tid st).find? (fun x => x.id == c.id) = some c := by
  have hmem := List.mem_of_find?_eq_some hf
  have hcid : client.id = tid := by simpa using List.find?_some hf
  cases st with
  | none =>
    rw [statusPhase_none]
    exact find_self_of_nodup db0 c hnd hc
  | some s =>
    by_cases hg : s ≠ "" ∧ client.status ≠ s
    · rw [statusPhase_guard db0 tid client s hf hg.1 hg.2,
        stepStatus_eq_map db0 tid client s hnd,
        find_id_map _ (fun x => gStep_id _ _ _ _ _) db0 c.id,
        find_self_of_nodup db0 c hnd hc]
      simp only [Option.map_some']
      rw [gStep_eq_self s hnd hc hcs (id_ne_tid_of_status_ne hnd hmem hcid hc hcs)]
    · rw [statusPhase_noguard db0 tid client s hf hg]
      exact find_self_of_nodup db0 c hnd hc

theorem priority_find_untouched (db : List Record) (t : String) (tid : Int)
    (client row c : Record) (n : Nat) (hnd : idsNodup db) (hrow : row ∈ db)
    (hrid : row.id = tid) (hrs : row.status = t) (hcid : client.id = tid)
    (hc : c ∈ db) (hct : c.status ≠ t) :
    (applyRanks db (splice n client (swimOf db t tid))).find?
      (fun x => x.id == c.id) = some c := by
  have hnm : c.id ∉ (splice n client (swimOf db t tid)).map Record.id := by
    intro hmm2
    have hmem2 : c.id ∈ (client :: swimOf db t tid).map Record.id :=
      ((splice_perm n client (swimOf db t tid)).map Record.id).mem_iff.mp hmm2
    rw [List.map_cons, List.mem_cons] at hmem2
    rcases hmem2 with hA | hB
    · have hcr : c = row := eq_of_id_eq hnd hc hrow (by rw [hA, hcid, hrid])
      exact hct (by rw [hcr, hrs])
    · obtain ⟨x, hx, hxid⟩ := List.mem_map.mp hB
      obtain ⟨hxdb, hxs⟩ := swim_mem db t tid x hx
      have hxc : x = c := eq_of_id_eq hnd hxdb hc hxid
      exact hct (by rw [← hxc, hxs])
  rw [applyRanks_newSeq_eq_map db t tid client n hnd hcid,
    find_id_map _ (fun x => prioAssign_id _ _ _) db c.id,
    find_self_of_nodup db c hnd hc]
  simp only [Option.map_some']
  rw [prioAssign_of_not_mem _ _ _ hnm]

theorem putClient_map_id (db0 : List Record) (tid : Int) (st : Option String)
    (pr : Option Int) :
    (putClient db0 tid st pr).db.map Record.id = db0.map Record.id := by
  cases hf : db0.find? (fun c => c.id == tid) with
  | none => rw [putClient_nofind db0 tid st pr hf]
  | some client =>
    cases pr with
    | none =>
      rw [putClient_pr_none db0 tid st client hf]
      exact statusPhase_map_id db0 tid st
    | some p =>
      by_cases hp : p = 0
      · subst hp
        rw [putClient_pr_zero db0 tid st client hf]
        exact statusPhase_map_id db0 tid st
      · rw [putClient_pr_some db0 tid st client p hf hp]
        by_cases hval : p < 1 ∨
          (((swimOf (statusPhase db0 tid st) (effStatus client st) tid).length : Int) + 1) < p
        · rw [priorityPhase_invalid _ tid client _ p hval]
          exact statusPhase_map_id db0 tid st
        · rw [priorityPhase_valid _ tid client _ p hval]
          show (applyRanks (statusPhase db0 tid st) _).map Record.id = _
          unfold applyRanks
          rw [map_id_applyRanksFrom]
          exact statusPhase_map_id db0 tid st

/-- C10: frame property of a successful invocation — the table's id sequence
is unchanged (no record created, deleted, or re-identified), and every record
whose status is neither the target's original status nor the effective
destination status keeps exactly its snapshot status and priority: looking
its id up in the persisted table returns the original row. -/
theorem put_frame_unaffected_lanes (db0 : List Record) (tid : Int)
    (st : Option String) (pr : Option Int) (client : Record)
    (hf : db0.find? (fun c => c.id == tid) = some client) (hnd : idsNodup db0)
    (hok : (putClient db0 tid st pr).resp.isOk = true) :
    (putClient db0 tid st pr).db.map Record.id = db0.map Record.id ∧
    ∀ c ∈ db0, c.status ≠ client.status → c.status ≠ effStatus client st →
      (putClient db0 tid st pr).db.find? (fun x => x.id == c.id) = some c := by
  refine ⟨putClient_map_id db0 tid st pr, ?_⟩
  intro c hc hcs hce
  cases pr with
  | none =>
    rw [putClient_pr_none db0 tid st client hf]
    exact statusPhase_find_untouched db0 tid st client c hf hnd hc hcs
  | some p =>
    by_cases hp : p = 0
    · subst hp
      rw [putClient_pr_zero db0 tid st client hf]
      exact statusPhase_find_untouched db0 tid st client c hf hnd hc hcs
    · rw [putClient_pr_some db0 tid st client p hf hp] at hok ⊢
      by_cases hval : p < 1 ∨
        (((swimOf (statusPhase db0 tid st) (effStatus client st) tid).length : Int) + 1) < p
      · rw [priorityPhase_invalid _ tid client _ p hval] at hok
        simp [Response.isOk] at hok
      · rw [priorityPhase_valid _ tid client _ p hval]
        show (applyRanks (statusPhase db0 tid st)
          (splice ((p - 1).toNat) client
            (swimOf (statusPhase db0 tid st) (effStatus client st) tid))).find?
          (fun x => x.id == c.id) = some c
        obtain ⟨row, hfr, hrid, hrs⟩ := statusPhase_target_row db0 tid st client hf
        have hc1 : (statusPhase db0 tid st).find? (fun x => x.id == c.id) = some c :=
          statusPhase_find_untouched db0 tid st client c hf hnd hc hcs
        exact priority_find_untouched (statusPhase db0 tid st) (effStatus client st)
          tid client row c ((p - 1).toNat) (statusPhase_idsNodup db0 tid st hnd)
          (List.mem_of_find?_eq_some hfr) hrid hrs
          (by simpa using List.find?_some hf)
          (List.mem_of_find?_eq_some hc1) hce

/-- Witness for C10: moving record 1 from lane a to lane b (rank 1) leaves
the record in the untouched lane c byte-for-byte intact, and the id sequence
of the table unchanged. -/
theorem put_frame_unaffected_lanes_witness :
    ((putClient [⟨1, ("a"), 1⟩, ⟨2, ("b"), 1⟩, ⟨3, ("c"), 1⟩]
        1 (some ("b")) (some 1)).db.map Record.id =
      ([⟨1, ("a"), 1⟩, ⟨2, ("b"), 1⟩, ⟨3, ("c"), 1⟩] : List Record).map Record.id) ∧
    ((putClient [⟨1, ("a"), 1⟩, ⟨2, ("b"), 1⟩, ⟨3, ("c"), 1⟩]
        1 (some ("b")) (some 1)).db.find? (fun x => x.id == (3 : Int)) =
      some ⟨3, ("c"), 1⟩) := by
  have h := put_frame_unaffected_lanes
    [⟨1, ("a"), 1⟩, ⟨2, ("b"), 1⟩, ⟨3, ("c"), 1⟩] 1 (some ("b")) (some 1)
    ⟨1, ("a"), 1⟩ (by decide) (by decide) (by decide)
  refine ⟨h.1, ?_⟩
  have h3 := h.2 ⟨3, ("c"), 1⟩ (by decide) (by decide) (by decide)
  exact h3
